import Mathlib

/-!
Verification of the duplicate-file-finder indexing pipeline.  The final
iteration of the Go program (function `walkFiles` with the upsert statement,
`setupDatabase` with the `UNIQUE(path, computer, disk_label)` schema, the
drive-selection block of `main`, and `getComputerName`) is shallowly embedded
below and the specified properties of the pipeline are proved against it.
-/

namespace DupFinder

/-- A row of the `files` table: columns `path`, `computer`, `disk_label`,
`size`.  The surrogate `id` column is auto-assigned and plays no role in any
property, so it is omitted.  Source: the CREATE TABLE statement in
`setupDatabase`. -/
structure Row where
  path : String
  computer : String
  diskLabel : String
  size : Int
deriving DecidableEq

/-- The natural key `(path, computer, disk_label)`: the column triple of the
schema's UNIQUE constraint. -/
abbrev RowKey := String × String × String

/-- The natural key of a row. -/
def rowKey (r : Row) : RowKey := (r.path, r.computer, r.diskLabel)

/-- Some row of `rows` carries natural key `k`. -/
def KeyIn (k : RowKey) (rows : List Row) : Prop := ∃ q ∈ rows, rowKey q = k

instance (k : RowKey) (rows : List Row) : Decidable (KeyIn k rows) :=
  inferInstanceAs (Decidable (∃ q ∈ rows, rowKey q = k))

/-- The DO UPDATE arm of the upsert: `SET size = excluded.size` on the row
whose natural key conflicts with the incoming row `r`. -/
def applyUpdate (r q : Row) : Row :=
  if rowKey q = rowKey r then { q with size := r.size } else q

/-- The prepared statement of `walkFiles`:
`INSERT INTO files(path, computer, disk_label, size) VALUES(?, ?, ?, ?)
ON CONFLICT(path, computer, disk_label) DO UPDATE SET size=excluded.size`.
Against the `UNIQUE(path, computer, disk_label)` schema this appends a fresh
row when no row carries the incoming natural key, and otherwise updates the
conflicting row's `size` in place. -/
def upsert (rows : List Row) (r : Row) : List Row :=
  if KeyIn (rowKey r) rows then rows.map (applyUpdate r) else rows ++ [r]

/-- A filesystem entry as `filepath.WalkDir` sees it.
* `file name info persistOk`: a non-directory entry; `info = some sz` when
  `d.Info()` succeeds with size `sz` and `none` when it fails (the Go code
  then keeps `size = 0`); `persistOk` says whether `stmt.Exec` succeeds on
  the entry.
* `dir name listing persistOk`: a directory; `listing = some children` when
  `os.ReadDir` succeeds and `none` when it fails (`WalkDir` then calls the
  callback a second time for the same path with the error and moves on). -/
inductive FSNode where
  | file (name : String) (info : Option Int) (persistOk : Bool)
  | dir (name : String) (listing : Option (List FSNode)) (persistOk : Bool)

/-- The entry's own name. -/
def FSNode.name : FSNode → String
  | .file n _ _ => n
  | .dir n _ _ => n

/-- The root of a walk: `statFail` when `os.Lstat(root)` fails (the callback
is invoked once with a non-nil error and returns nil, so nothing is visited),
`ok` when the root resolves to an entry. -/
inductive RootFS where
  | statFail (path : String)
  | ok (path : String) (node : FSNode)

/-- Model of `filepath.Join` for the walk's paths (Windows separator; `Join`'s path
cleaning is irrelevant here because path strings are otherwise opaque). -/
def joinPath (p n : String) : String := p ++ "\\" ++ n

/-- One invocation of the walk callback with `err == nil`.  Invocations with
a non-nil `err` return nil at once and change nothing, so they are not
recorded. -/
structure Visit where
  path : String
  isDir : Bool
  info : Option Int
  persistOk : Bool
deriving DecidableEq

mutual
/-- The successful (`err == nil`) callback invocations `filepath.WalkDir`
makes below one entry.  The callback of `walkFiles` returns nil on every
invocation — never `SkipDir`, `SkipAll` or an error — so the traversal is
independent of the callback's state and is this fixed sequence: the entry
itself first, then, for a directory with a readable listing, its children in
order; an unlistable directory contributes only itself. -/
def visitsOfNode (path : String) (n : FSNode) : List Visit :=
  match n with
  | .file _ info persistOk => [⟨path, false, info, persistOk⟩]
  | .dir _ listing persistOk =>
      ⟨path, true, none, persistOk⟩ ::
        (match listing with
          | none => []
          | some cs => visitsOfList path cs)

/-- Visits below the children of a directory at `path`, left to right. -/
def visitsOfList (path : String) (ns : List FSNode) : List Visit :=
  match ns with
  | [] => []
  | c :: rest => visitsOfNode (joinPath path c.name) c ++ visitsOfList path rest
end

/-- The full visit sequence of a walk: empty when the root cannot be
stat-ed. -/
def rootVisits : RootFS → List Visit
  | .statFail _ => []
  | .ok path n => visitsOfNode path n

/-- The size the callback computes for a visit: 0 for a directory (the
`d.Info()` call is skipped), otherwise `info.Size()` when the stat succeeded
and the initial 0 when it failed. -/
def visitSize (v : Visit) : Int := if v.isDir then 0 else v.info.getD 0

/-- The tagging context: `computerName` and `diskLabel` stamp every
record. -/
structure Ctx where
  computer : String
  diskLabel : String
deriving DecidableEq

/-- The FileRecord the callback binds for one visited path. -/
def mkRecord (path : String) (ctx : Ctx) (size : Int) : Row :=
  ⟨path, ctx.computer, ctx.diskLabel, size⟩

/-- The mutable state of one `walkFiles` call: the table contents, the
counter `count`, and the values sent so far on the (non-nil, buffered)
progress channel, in order. -/
structure WalkState where
  db : List Row
  count : Nat
  sent : List Nat
deriving DecidableEq

/-- The walk callback's body for a successful visit: compute the size and run
the prepared upsert; on success increment `count` and send the new value on
the progress channel, on failure log the entry and leave everything
unchanged. -/
def stepVisit (ctx : Ctx) (s : WalkState) (v : Visit) : WalkState :=
  if v.persistOk then
    ⟨upsert s.db (mkRecord v.path ctx (visitSize v)), s.count + 1,
      s.sent ++ [s.count + 1]⟩
  else s

/-- The one error `walkFiles` can return: `db.Prepare` failed. -/
inductive WalkError where
  | prepareFailed
deriving DecidableEq

/-- The outcome of one `walkFiles` call: the final table contents, every
value sent on the progress channel in order, and the returned pair
`(count, err)`. -/
structure ScanOut where
  db : List Row
  sent : List Nat
  total : Nat
  err : Option WalkError
deriving DecidableEq

/-- The function `walkFiles` (final iteration): prepare the upsert statement — a failure
is returned at once as the scan's error, with nothing sent; otherwise fold
the callback over the walk's visit sequence and finally send the cumulative
count once more.  The callback returns nil on every invocation, so
`filepath.WalkDir` itself always returns nil and the returned error is nil
whenever the statement prepared. -/
def walkFiles (fs : RootFS) (ctx : Ctx) (db : List Row) (prepOk : Bool) :
    ScanOut :=
  if prepOk then
    let s := (rootVisits fs).foldl (stepVisit ctx) ⟨db, 0, []⟩
    ⟨s.db, s.sent ++ [s.count], s.count, none⟩
  else
    ⟨db, [], 0, some WalkError.prepareFailed⟩

/-- One drive's scan as `main` runs it: `walkFiles`, then
`close(progress)` once it has returned. -/
structure DriveScan where
  result : ScanOut
  channelClosed : Bool
deriving DecidableEq

/-- The per-drive sequence of `main` around `walkFiles`: the progress channel is
closed right after the call returns, on every path. -/
def scanDrive (fs : RootFS) (ctx : Ctx) (db : List Row) (prepOk : Bool) :
    DriveScan :=
  ⟨walkFiles fs ctx db prepOk, true⟩

/-- The store file behind `files.db`: whether the `files` table exists, and
its rows (a file without the table holds no rows). -/
structure StoreFile where
  hasTable : Bool
  rows : List Row
deriving DecidableEq

/-- Effect of `CREATE TABLE IF NOT EXISTS files (...)`: a no-op when the table already
exists, otherwise it creates the empty table.  No row is read, changed or
deleted. -/
def createTableIfMissing (sf : StoreFile) : StoreFile :=
  if sf.hasTable then sf else ⟨true, []⟩

/-- The function `setupDatabase`: when the store file does not yet exist, plain
`CREATE TABLE files (...)` (an error if the table somehow already exists);
when the file exists, `CREATE TABLE IF NOT EXISTS files (...)`.  No branch
drops a table or touches existing rows. -/
def setupDatabase (fileAlready : Bool) (sf : StoreFile) : Except Unit StoreFile :=
  if !fileAlready then
    (if sf.hasTable then Except.error () else Except.ok ⟨true, []⟩)
  else
    Except.ok (createTableIfMissing sf)

/-- The function `getComputerName`: the result of `os.Hostname()` (`none` = lookup error)
mapped to the host tag — the hostname verbatim on success, `"Unknown"` on
failure. -/
def getComputerName (hostname : Option String) : String :=
  match hostname with
  | none => "Unknown"
  | some n => n

/-- One candidate volume: the drive name `listDrives` reports (for example
`"C:\"`), the tree behind it, and its tagging context. -/
structure Volume where
  name : String
  fs : RootFS
  ctx : Ctx

/-- Model of `strings.ToLower`: simple case mapping, character-wise (the identifiers
compared here are ASCII drive letters). -/
def lowerStr (s : String) : String := ⟨s.data.map Char.toLower⟩

/-- Model of `strings.TrimSpace`: drop leading and trailing whitespace. -/
def trimStr (s : String) : String :=
  ⟨((s.data.dropWhile Char.isWhitespace).reverse.dropWhile
      Char.isWhitespace).reverse⟩

/-- The drive-letter comparison in `main`'s selection loops: the lowercased
leading character of a candidate drive against the leading character of the
already trimmed-and-lowercased requested identifier.  (Go slices the first
byte; for ASCII drive names the first character is the same.) -/
def driveMatches (driveInput d : String) : Bool :=
  lowerStr (d.take 1) == driveInput.take 1

/-- The drive-selection block of `main` (final iteration): with an empty
`-drive` flag every drive is scanned; otherwise the trimmed, lowercased input
must match some drive's leading letter or the run aborts (`none`); on a match
the first matching canonical drive name is scanned alone. -/
def selectVols (flagV : String) (vols : List Volume) : Option (List Volume) :=
  if flagV = "" then some vols
  else
    let driveInput := lowerStr (trimStr flagV)
    let found :=
      if 0 < driveInput.length then
        vols.any (fun v => driveMatches driveInput v.name)
      else false
    if found then
      some (vols.find? (fun v => driveMatches driveInput v.name)).toList
    else none

/-- What a run leaves behind: the process exit status, whether the
user-facing "Drive ... not found" error was printed, how many volume scans
ran, and the final table contents.  `main` ends every path with a plain
`return` and the program never calls `os.Exit`, so the exit status is 0 on
every path. -/
structure RunOutcome where
  exitCode : Nat
  errorPrinted : Bool
  scansRun : Nat
  db : List Row
deriving DecidableEq

/-- The body of `main` from the drive-selection block onward: on a selection miss print
the error and return (exit status 0, no scan, no write); otherwise scan each
selected volume in order against the store. -/
def mainModel (flagV : String) (vols : List Volume) (db : List Row) :
    RunOutcome :=
  match selectVols flagV vols with
  | none => ⟨0, true, 0, db⟩
  | some sel =>
      ⟨0, false, sel.length,
        sel.foldl (fun d v => (walkFiles v.fs v.ctx d true).db) db⟩

mutual
/-- Every `stmt.Exec` below this entry succeeds. -/
def allPersistOkNode : FSNode → Bool
  | .file _ _ persistOk => persistOk
  | .dir _ none persistOk => persistOk
  | .dir _ (some cs) persistOk => persistOk && allPersistOkList cs

/-- Every `stmt.Exec` below these entries succeeds. -/
def allPersistOkList : List FSNode → Bool
  | [] => true
  | c :: rest => allPersistOkNode c && allPersistOkList rest
end

/-- Every `stmt.Exec` of the walk succeeds. -/
def allPersistOk : RootFS → Bool
  | .statFail _ => true
  | .ok _ n => allPersistOkNode n

mutual
/-- The number of entries the traversal reaches (delivers to the callback
with a nil error): the entry itself plus, when its listing is readable, its
children; nothing below an unlistable directory. -/
def reachableNode : FSNode → Nat
  | .file _ _ _ => 1
  | .dir _ none _ => 1
  | .dir _ (some cs) _ => 1 + reachableList cs

/-- Reachable entries below a directory's children. -/
def reachableList : List FSNode → Nat
  | [] => 0
  | c :: rest => reachableNode c + reachableList rest
end

/-- Reachable entries of a whole walk: none when the root cannot be
stat-ed. -/
def rootReachable : RootFS → Nat
  | .statFail _ => 0
  | .ok _ n => reachableNode n

/-- The rows a visit sequence pushes through the upsert, in order (a visit
whose `Exec` fails contributes nothing). -/
def visitRecords (ctx : Ctx) (vs : List Visit) : List Row :=
  vs.filterMap fun v =>
    if v.persistOk then some (mkRecord v.path ctx (visitSize v)) else none

/-- Invariant of the walk state: the values sent so far are non-decreasing
and none exceeds the current counter. -/
def GoodState (s : WalkState) : Prop :=
  List.Chain' (· ≤ ·) s.sent ∧ ∀ x ∈ s.sent, x ≤ s.count

/-- A concrete tree for the error-isolation witness: root `C:\` with
readable files `a` and `b` and a directory `c` whose listing cannot be
read. -/
def demoFS : RootFS :=
  RootFS.ok "C:\\" (FSNode.dir "C:\\"
    (some [FSNode.file "a" (some 10) true,
           FSNode.dir "c" none true,
           FSNode.file "b" (some 20) true]) true)

/-- The tagging context of the witnesses. -/
def demoCtx : Ctx := ⟨"HOST", "Data"⟩

/-- The DO UPDATE arm changes only `size`, so the natural key of a row
survives it. -/
theorem rowKey_applyUpdate (r q : Row) : rowKey (applyUpdate r q) = rowKey q := by
  unfold applyUpdate
  split
  · rfl
  · rfl

/-- Unfolding `KeyIn`. -/
theorem keyIn_def (k : RowKey) (rows : List Row) :
    KeyIn k rows ↔ ∃ q ∈ rows, rowKey q = k := Iff.rfl

/-- The upsert grows the table by one row exactly when the incoming natural
key is new. -/
theorem length_upsert (rows : List Row) (r : Row) :
    (upsert rows r).length =
      if KeyIn (rowKey r) rows then rows.length else rows.length + 1 := by
  by_cases h : KeyIn (rowKey r) rows
  · simp [upsert, h]
  · simp [upsert, h]

/-- The natural keys present after an upsert: the old ones plus the
incoming row's. -/
theorem keyIn_upsert (rows : List Row) (r : Row) (k : RowKey) :
    KeyIn k (upsert rows r) ↔ KeyIn k rows ∨ k = rowKey r := by
  by_cases h : KeyIn (rowKey r) rows
  · simp only [upsert, if_pos h]
    constructor
    · rintro ⟨q, hq, hk⟩
      rw [List.mem_map] at hq
      obtain ⟨q0, hq0, rfl⟩ := hq
      rw [rowKey_applyUpdate] at hk
      exact Or.inl ⟨q0, hq0, hk⟩
    · rintro (⟨q, hq, hk⟩ | rfl)
      · exact ⟨applyUpdate r q, List.mem_map_of_mem _ hq,
          by rw [rowKey_applyUpdate]; exact hk⟩
      · obtain ⟨q, hq, hk⟩ := h
        exact ⟨applyUpdate r q, List.mem_map_of_mem _ hq,
          by rw [rowKey_applyUpdate]; exact hk⟩
  · unfold upsert
    rw [if_neg h]
    simp only [keyIn_def]
    constructor
    · rintro ⟨q, hq, hk⟩
      rcases List.mem_append.mp hq with h1 | h2
      · exact Or.inl ⟨q, h1, hk⟩
      · rw [List.mem_singleton] at h2
        subst h2
        exact Or.inr hk.symm
    · rintro (⟨q, hq, hk⟩ | rfl)
      · exact ⟨q, List.mem_append_left _ hq, hk⟩
      · exact ⟨r, List.mem_append_right _ (List.mem_singleton_self r), rfl⟩

/-- A key present before a run of upserts is present after it. -/
theorem keyIn_foldl_mono (k : RowKey) (rs : List Row) :
    ∀ db : List Row, KeyIn k db → KeyIn k (List.foldl upsert db rs) := by
  induction rs with
  | nil => exact fun db h => h
  | cons a rest ih =>
      exact fun db h => ih (upsert db a) ((keyIn_upsert db a k).mpr (Or.inl h))

/-- After folding a list of rows through the upsert, every one of their
natural keys is present. -/
theorem keyIn_foldl_of_mem {r : Row} {rs : List Row} (h : r ∈ rs) :
    ∀ db : List Row, KeyIn (rowKey r) (List.foldl upsert db rs) := by
  induction rs with
  | nil => exact absurd h (List.not_mem_nil r)
  | cons a rest ih =>
      intro db
      rcases List.mem_cons.mp h with h1 | h2
      · subst h1
        exact keyIn_foldl_mono _ rest _ ((keyIn_upsert db r _).mpr (Or.inr rfl))
      · exact ih h2 (upsert db a)

/-- Upserting rows whose keys are all already present never changes the row
count. -/
theorem length_foldl_stable (rs : List Row) :
    ∀ db : List Row, (∀ r ∈ rs, KeyIn (rowKey r) db) →
      (List.foldl upsert db rs).length = db.length := by
  induction rs with
  | nil => exact fun db _ => rfl
  | cons a rest ih =>
      intro db h
      have ha : KeyIn (rowKey a) db := h a (List.mem_cons_self a rest)
      have hlen : (upsert db a).length = db.length := by
        rw [length_upsert, if_pos ha]
      have hrest : ∀ r ∈ rest, KeyIn (rowKey r) (upsert db a) := fun r hr =>
        (keyIn_upsert db a _).mpr (Or.inl (h r (List.mem_cons_of_mem _ hr)))
      rw [List.foldl_cons, ih (upsert db a) hrest, hlen]

/-- The walk's table evolution is the fold of the upsert over the records of
its visit sequence (the callback's own state never affects which records are
submitted). -/
theorem db_foldl (ctx : Ctx) (vs : List Visit) :
    ∀ s : WalkState,
      (vs.foldl (stepVisit ctx) s).db =
        List.foldl upsert s.db (visitRecords ctx vs) := by
  induction vs with
  | nil => exact fun s => rfl
  | cons v rest ih =>
      intro s
      rw [List.foldl_cons]
      by_cases hp : v.persistOk = true
      · have h1 : stepVisit ctx s v =
            ⟨upsert s.db (mkRecord v.path ctx (visitSize v)), s.count + 1,
              s.sent ++ [s.count + 1]⟩ := by
          simp [stepVisit, hp]
        have h2 : visitRecords ctx (v :: rest) =
            mkRecord v.path ctx (visitSize v) :: visitRecords ctx rest := by
          simp [visitRecords, List.filterMap_cons, hp]
        rw [h1, h2, List.foldl_cons, ih]
      · have h1 : stepVisit ctx s v = s := by simp [stepVisit, hp]
        have h2 : visitRecords ctx (v :: rest) = visitRecords ctx rest := by
          simp [visitRecords, List.filterMap_cons, hp]
        rw [h1, h2, ih]

/-- The table `walkFiles` leaves behind is the initial table with the visit
sequence's records upserted in order. -/
theorem walkFiles_db (fs : RootFS) (ctx : Ctx) (db : List Row) :
    (walkFiles fs ctx db true).db =
      List.foldl upsert db (visitRecords ctx (rootVisits fs)) :=
  db_foldl ctx (rootVisits fs) ⟨db, 0, []⟩

/-- C1: running the Walker's scan twice over the same unchanged tree with the
same tagging context leaves the Store with the same row count as running it
once, because the prepared statement upserts on the natural key
`(path, computer, disk_label)`: it appends a row exactly when the key is new
(second conjunct) and otherwise only rewrites `size`, leaving the set of
present keys the old ones plus the incoming one (third conjunct). -/
theorem rescan_row_count_stable (fs : RootFS) (ctx : Ctx)
    (db rows : List Row) (r : Row) :
    ((walkFiles fs ctx (walkFiles fs ctx db true).db true).db).length =
        ((walkFiles fs ctx db true).db).length ∧
      (upsert rows r).length =
        (if KeyIn (rowKey r) rows then rows.length else rows.length + 1) ∧
      (∀ k : RowKey, KeyIn k (upsert rows r) ↔ KeyIn k rows ∨ k = rowKey r) := by
  refine ⟨?_, length_upsert rows r, fun k => keyIn_upsert rows r k⟩
  rw [walkFiles_db, walkFiles_db]
  exact length_foldl_stable _ _ fun q hq => keyIn_foldl_of_mem hq db

/-- C7: opening the Store on an existing store file runs only
`CREATE TABLE IF NOT EXISTS`: with the table present nothing at all changes
(every accumulated row survives), and with the table absent an empty table is
created — no branch drops, recreates or rewrites anything. -/
theorem setup_existing_store_preserves_rows (rows : List Row) :
    setupDatabase true ⟨true, rows⟩ = Except.ok ⟨true, rows⟩ ∧
      setupDatabase true ⟨false, rows⟩ = Except.ok ⟨true, []⟩ :=
  ⟨rfl, rfl⟩

/-- C8: once the insert statement has been prepared, `walkFiles` returns a
nil error on every tree — the traversal callback returns nil on every path,
so `filepath.WalkDir` never propagates an error. -/
theorem walk_err_none_after_prepare (fs : RootFS) (ctx : Ctx) (db : List Row) :
    (walkFiles fs ctx db true).err = none := rfl

/-- C9: a non-directory entry that the traversal lists but whose `Info()`
call fails is not skipped: the scan persists it with size 0, counts it and
reports it on the progress channel, exactly as it would an entry whose size
was read as 0. -/
theorem statless_file_persisted_size_zero (p name : String) (ctx : Ctx)
    (db : List Row) :
    walkFiles (RootFS.ok p (FSNode.file name none true)) ctx db true =
        ⟨upsert db (mkRecord p ctx 0), [1, 1], 1, none⟩ ∧
      walkFiles (RootFS.ok p (FSNode.file name none true)) ctx db true =
        walkFiles (RootFS.ok p (FSNode.file name (some 0) true)) ctx db true :=
  ⟨rfl, rfl⟩

/-- C10 counterexample: when `os.Hostname()` succeeds but reports the empty
string, `getComputerName` returns the empty string verbatim — the host tag
attached to every record of that scan is empty, so the host identifier is
not always a non-empty string. -/
theorem host_tag_empty_on_empty_hostname : getComputerName (some "") = "" :=
  rfl

/-- C10 amended: when the hostname lookup fails the non-empty constant
`"Unknown"` is used in its place, so a lookup failure never yields a missing
host tag; when the lookup succeeds the reported hostname is used verbatim,
so the host tag is empty only when the operating system reports an empty
hostname. -/
theorem host_tag_unknown_on_failure :
    getComputerName none = "Unknown" ∧
      0 < (getComputerName none).length ∧
      ∀ n : String, getComputerName (some n) = n :=
  ⟨rfl, by decide, fun n => rfl⟩

/-- C3 counterexample: an unreadable root path is not terminal — the
callback swallows the `Lstat` error and `walkFiles` returns total 0 with a
nil error — and on the one genuinely terminal condition (statement
preparation failure) `walkFiles` returns at once without sending anything on
the progress channel, so no accumulated progress is reported. -/
theorem walk_unreadable_root_not_terminal :
    (walkFiles (RootFS.statFail "C:\\") ⟨"HOST", "Data"⟩ [] true).err = none ∧
      (walkFiles (RootFS.statFail "C:\\") ⟨"HOST", "Data"⟩ [] true).total = 0 ∧
      (walkFiles (RootFS.ok "C:\\" (FSNode.dir "C:\\" (some []) true))
          ⟨"HOST", "Data"⟩ [] false).sent = [] :=
  ⟨rfl, rfl, rfl⟩

/-- C3 amended: the only condition that produces a terminal (non-nil)
ScanResult error is a Store statement-preparation failure; an unreadable
root path is silently skipped (the scan returns total 0 and a nil error);
and when the terminal error occurs the Walker returns immediately without
sending anything on its progress channel. -/
theorem terminal_error_only_prepare (fs : RootFS) (ctx : Ctx) (db : List Row) :
    (walkFiles fs ctx db true).err = none ∧
      (walkFiles (RootFS.statFail "C:\\") ctx db true).total = 0 ∧
      (walkFiles fs ctx db false).err = some WalkError.prepareFailed ∧
      (walkFiles fs ctx db false).sent = [] ∧
      (walkFiles fs ctx db false).total = 0 :=
  ⟨rfl, rfl, rfl, rfl, rfl⟩

/-- One callback invocation keeps the progress values non-decreasing and
bounded by the counter. -/
theorem goodState_step (ctx : Ctx) (v : Visit) (s : WalkState)
    (h : GoodState s) : GoodState (stepVisit ctx s v) := by
  obtain ⟨hchain, hbound⟩ := h
  by_cases hp : v.persistOk = true
  · constructor
    · show List.Chain' (· ≤ ·) (stepVisit ctx s v).sent
      have hsent : (stepVisit ctx s v).sent = s.sent ++ [s.count + 1] := by
        simp [stepVisit, hp]
      rw [hsent, List.chain'_append]
      refine ⟨hchain, List.chain'_singleton _, ?_⟩
      intro x hx y hy
      rw [List.head?_cons, Option.mem_some_iff] at hy
      subst hy
      exact Nat.le_succ_of_le (hbound x (List.mem_of_mem_getLast? hx))
    · intro x hx
      have hsent : (stepVisit ctx s v).sent = s.sent ++ [s.count + 1] := by
        simp [stepVisit, hp]
      have hcount : (stepVisit ctx s v).count = s.count + 1 := by
        simp [stepVisit, hp]
      rw [hsent] at hx
      rw [hcount]
      rcases List.mem_append.mp hx with h1 | h2
      · exact Nat.le_succ_of_le (hbound x h1)
      · rw [List.mem_singleton] at h2
        subst h2
        exact Nat.le_refl _
  · have hs : stepVisit ctx s v = s := by simp [stepVisit, hp]
    rw [hs]
    exact ⟨hchain, hbound⟩

/-- The invariant holds after folding the callback over any visit
sequence. -/
theorem goodState_foldl (ctx : Ctx) (vs : List Visit) :
    ∀ s : WalkState, GoodState s → GoodState (vs.foldl (stepVisit ctx) s) := by
  induction vs with
  | nil => exact fun s h => h
  | cons v rest ih =>
      exact fun s h => ih (stepVisit ctx s v) (goodState_step ctx v s h)

/-- The state a completed walk folds up to satisfies the invariant. -/
theorem goodState_walk (fs : RootFS) (ctx : Ctx) (db : List Row) :
    GoodState ((rootVisits fs).foldl (stepVisit ctx) ⟨db, 0, []⟩) :=
  goodState_foldl ctx (rootVisits fs) ⟨db, 0, []⟩
    ⟨List.chain'_nil, fun x hx => absurd hx (List.not_mem_nil x)⟩

/-- C2: within one scan the values sent on the progress channel form a
non-decreasing sequence — each successful persist sends the incremented
cumulative count — and the last value sent (the final emission after the
walk) equals the total the scan returns. -/
theorem progress_monotone_total (fs : RootFS) (ctx : Ctx) (db : List Row) :
    List.Chain' (· ≤ ·) (walkFiles fs ctx db true).sent ∧
      (walkFiles fs ctx db true).sent.getLast? =
        some (walkFiles fs ctx db true).total := by
  have hg := goodState_walk fs ctx db
  constructor
  · show List.Chain'
      (· ≤ ·)
      (((rootVisits fs).foldl (stepVisit ctx) ⟨db, 0, []⟩).sent ++
        [((rootVisits fs).foldl (stepVisit ctx) ⟨db, 0, []⟩).count])
    rw [List.chain'_append]
    refine ⟨hg.1, List.chain'_singleton _, ?_⟩
    intro x hx y hy
    rw [List.head?_cons, Option.mem_some_iff] at hy
    subst hy
    exact hg.2 x (List.mem_of_mem_getLast? hx)
  · exact List.getLast?_concat _

/-- C6 counterexample: scanning an empty directory tree does not yield
ScanResult total 0 — the root directory entry is itself persisted, so the
scan of an empty directory returns total 1 (with a nil error). -/
theorem empty_dir_scan_total_one :
    (walkFiles (RootFS.ok "C:\\" (FSNode.dir "C:\\" (some []) true))
        ⟨"HOST", "Data"⟩ [] true).total = 1 ∧
      (walkFiles (RootFS.ok "C:\\" (FSNode.dir "C:\\" (some []) true))
          ⟨"HOST", "Data"⟩ [] true).err = none :=
  ⟨rfl, rfl⟩

/-- C6 amended: every scan that reaches its end emits one final count on the
progress channel equal to the total it returns, after which `main` closes
the channel; a scan of an empty directory tree reaches its end with no error
and total 1 — the root directory entry itself — not 0. -/
theorem final_emit_equals_total (fs : RootFS) (ctx : Ctx) (db : List Row) :
    (scanDrive fs ctx db true).result.sent.getLast? =
        some (scanDrive fs ctx db true).result.total ∧
      (scanDrive fs ctx db true).channelClosed = true ∧
      (scanDrive (RootFS.ok "C:\\" (FSNode.dir "C:\\" (some []) true))
          ctx db true).result.total = 1 ∧
      (scanDrive (RootFS.ok "C:\\" (FSNode.dir "C:\\" (some []) true))
          ctx db true).result.err = none :=
  ⟨List.getLast?_concat _, rfl, rfl, rfl⟩

/-- C4 counterexample: with the drive filter set to `Z` and only `C:\`
enumerated, the run aborts — the "Drive ... not found" error is printed, no
scan runs and the store is untouched — but `main` ends with a plain
`return`, so the process exit status is 0, not non-zero as claimed. -/
theorem drive_filter_miss_exit_zero :
    mainModel "Z" [⟨"C:\\", RootFS.statFail "C:\\", ⟨"HOST", "Data"⟩⟩] [] =
      ⟨0, true, 0, []⟩ := by
  decide

/-- C4 amended: if a volume-selection filter is configured and the requested
identifier matches no enumerated volume (comparison is case-insensitive on
the leading identifier), the run aborts with a user-facing error, no scan is
attempted and no Store write is performed — but the process exit status is
0, because `main` ends every path with a plain `return` and never calls
`os.Exit`. -/
theorem drive_filter_miss_aborts (flagV : String) (vols : List Volume)
    (db : List Row) (hne : flagV ≠ "")
    (hmiss : ∀ v ∈ vols, driveMatches (lowerStr (trimStr flagV)) v.name = false) :
    mainModel flagV vols db = ⟨0, true, 0, db⟩ := by
  have hany :
      vols.any (fun v => driveMatches (lowerStr (trimStr flagV)) v.name)
        = false := by
    rw [List.any_eq_false]
    intro v hv
    rw [hmiss v hv]
    exact Bool.false_ne_true
  have hsel : selectVols flagV vols = none := by
    unfold selectVols
    rw [if_neg hne]
    by_cases hl : 0 < (lowerStr (trimStr flagV)).length
    · simp [hl, hany]
    · simp [hl]
  unfold mainModel
  rw [hsel]

/-- C4 witness: the amended abort behaviour at the concrete miss input
`-drive Q` against an enumerated `C:\`. -/
theorem drive_filter_miss_aborts_witness :
    mainModel "Q" [⟨"C:\\", RootFS.statFail "C:\\", ⟨"HOST", "Data"⟩⟩] [] =
      ⟨0, true, 0, []⟩ :=
  drive_filter_miss_aborts "Q"
    [⟨"C:\\", RootFS.statFail "C:\\", ⟨"HOST", "Data"⟩⟩] [] (by decide)
    (by decide)

mutual
/-- When every `Exec` below an entry succeeds, the persisted visits below it
are exactly the reachable entries below it. -/
theorem visits_persist_count_node (p : String) (n : FSNode)
    (h : allPersistOkNode n = true) :
    ((visitsOfNode p n).filter (fun v => v.persistOk)).length =
      reachableNode n := by
  cases n with
  | file name info persistOk =>
      rw [allPersistOkNode] at h
      simp [visitsOfNode, reachableNode, List.filter_cons, h]
  | dir name listing persistOk =>
      cases listing with
      | none =>
          rw [allPersistOkNode] at h
          simp [visitsOfNode, reachableNode, List.filter_cons, h]
      | some cs =>
          rw [allPersistOkNode, Bool.and_eq_true] at h
          obtain ⟨h1, h2⟩ := h
          rw [visitsOfNode]
          simp only [List.filter_cons, h1, if_true, List.length_cons,
            reachableNode, visits_persist_count_list p cs h2]
          omega

/-- When every `Exec` below a listing succeeds, the persisted visits below
it are exactly the reachable entries below it. -/
theorem visits_persist_count_list (p : String) (ns : List FSNode)
    (h : allPersistOkList ns = true) :
    ((visitsOfList p ns).filter (fun v => v.persistOk)).length =
      reachableList ns := by
  cases ns with
  | nil => rfl
  | cons c rest =>
      rw [allPersistOkList, Bool.and_eq_true] at h
      obtain ⟨h1, h2⟩ := h
      rw [visitsOfList, List.filter_append, List.length_append,
        visits_persist_count_node (joinPath p c.name) c h1,
        visits_persist_count_list p rest h2, reachableList]
end

/-- The walk's counter advances by one per successfully persisted visit. -/
theorem count_foldl (ctx : Ctx) (vs : List Visit) :
    ∀ s : WalkState,
      (vs.foldl (stepVisit ctx) s).count =
        s.count + (vs.filter (fun v => v.persistOk)).length := by
  induction vs with
  | nil => intro s; simp
  | cons v rest ih =>
      intro s
      rw [List.foldl_cons, ih (stepVisit ctx s v)]
      by_cases hp : v.persistOk = true
      · have h1 : (stepVisit ctx s v).count = s.count + 1 := by
          simp [stepVisit, hp]
        rw [h1]
        simp only [List.filter_cons, hp, if_true, List.length_cons]
        omega
      · have h1 : stepVisit ctx s v = s := by simp [stepVisit, hp]
        rw [h1]
        simp [List.filter_cons, hp]

/-- C5: for a tree with reachable entries and unreadable entries
interspersed — an unreadable root is never visited, an unlistable
directory's contents are never visited while the directory entry itself
still is — a scan on which every persist succeeds completes with exactly one
persisted record per reachable entry and a non-terminal (nil-error)
outcome. -/
theorem scan_error_isolation (fs : RootFS) (ctx : Ctx) (db : List Row)
    (h : allPersistOk fs = true) :
    (walkFiles fs ctx db true).total = rootReachable fs ∧
      (walkFiles fs ctx db true).err = none := by
  refine ⟨?_, rfl⟩
  show ((rootVisits fs).foldl (stepVisit ctx) ⟨db, 0, []⟩).count =
    rootReachable fs
  rw [count_foldl]
  cases fs with
  | statFail p => rfl
  | ok p n =>
      rw [Nat.zero_add]
      exact visits_persist_count_node p n h

/-- C5 witness: the error-isolation property at the concrete tree `demoFS`
(files `a` and `b`, unlistable directory `c`): four reachable entries, four
persisted records, nil error. -/
theorem scan_error_isolation_witness :
    allPersistOk demoFS = true ∧
      ((walkFiles demoFS demoCtx [] true).total = rootReachable demoFS ∧
        (walkFiles demoFS demoCtx [] true).err = none) :=
  ⟨by decide, scan_error_isolation demoFS demoCtx [] (by decide)⟩

end DupFinder
